import Mathlib

/-!
# Verification of the polygon geometry suite in `validate_geometry.py`

Shallow embedding of the 2D polygon-splitting algorithms: `Vector2`,
`point_side_of_line`, `segment_line_intersection`, `polygon_area`,
`polygon_centroid` and `split_polygon_by_line`.  Coordinates are embedded
as exact rationals (`ℚ`); the source works with IEEE doubles, and every
branch condition of the source is a rational comparison, so the rational
embedding follows the source's control flow exactly.  The single place the
source uses `math.sqrt` (`Vector2.normalized`) is embedded separately over
`ℝ` (`VecR.normalized`).
-/

/-- The shared tolerance constant `EPSILON = 0.0001` of the source. -/
def EPSILON : ℚ := 1 / 10000

/-- Embeds the `Vector2` class: a pair of coordinates. -/
structure Vec where
  x : ℚ
  y : ℚ
deriving DecidableEq

/-- The zero vector, also used as the (never-hit) default for list indexing. -/
def vzero : Vec := ⟨0, 0⟩

instance : Sub Vec := ⟨fun a b => ⟨a.x - b.x, a.y - b.y⟩⟩

instance : Add Vec := ⟨fun a b => ⟨a.x + b.x, a.y + b.y⟩⟩

instance : Neg Vec := ⟨fun a => ⟨-a.x, -a.y⟩⟩

/-- Embeds `Vector2.__mul__` (scalar multiplication). -/
def Vec.scale (v : Vec) (c : ℚ) : Vec := ⟨v.x * c, v.y * c⟩

@[simp] theorem Vec.sub_x (a b : Vec) : (a - b).x = a.x - b.x := rfl

@[simp] theorem Vec.sub_y (a b : Vec) : (a - b).y = a.y - b.y := rfl

@[simp] theorem Vec.add_x (a b : Vec) : (a + b).x = a.x + b.x := rfl

@[simp] theorem Vec.add_y (a b : Vec) : (a + b).y = a.y + b.y := rfl

@[simp] theorem Vec.neg_x (a : Vec) : (-a).x = -a.x := rfl

@[simp] theorem Vec.neg_y (a : Vec) : (-a).y = -a.y := rfl

@[simp] theorem Vec.scale_x (a : Vec) (c : ℚ) : (a.scale c).x = a.x * c := rfl

@[simp] theorem Vec.scale_y (a : Vec) (c : ℚ) : (a.scale c).y = a.y * c := rfl

/-- Embeds `Vector2.dot`. -/
def Vec.dot (a b : Vec) : ℚ := a.x * b.x + a.y * b.y

/-- `vertices[i]` of the source; all uses are in bounds, the default is
never reached. -/
def vAt (vs : List Vec) (i : ℕ) : Vec := vs.getD i vzero

/-- Embeds `point_side_of_line`. -/
def point_side_of_line (point line_point line_normal : Vec) : ℤ :=
  let distance := (point - line_point).dot line_normal
  if |distance| < EPSILON then 0
  else if 0 < distance then 1 else -1

/-- Embeds `segment_line_intersection`. -/
def segment_line_intersection (seg_start seg_end line_point line_normal : Vec) :
    Option Vec :=
  let seg_dir := seg_end - seg_start
  let denominator := seg_dir.dot line_normal
  if |denominator| < EPSILON then none
  else
    let t := ((line_point - seg_start).dot line_normal) / denominator
    if t < -EPSILON ∨ 1 + EPSILON < t then none
    else
      let t_clamped := max 0 (min 1 t)
      some ⟨seg_start.x + seg_dir.x * t_clamped, seg_start.y + seg_dir.y * t_clamped⟩

/-- One term `vertices[i].x * vertices[j].y - vertices[j].x * vertices[i].y`
of the shoelace accumulation, with `j = (i + 1) % n` as in the source. -/
def shoelaceTerm (vs : List Vec) (i : ℕ) : ℚ :=
  (vAt vs i).x * (vAt vs ((i + 1) % vs.length)).y -
    (vAt vs ((i + 1) % vs.length)).x * (vAt vs i).y

/-- The signed shoelace accumulation of `polygon_area` before `abs`/halving. -/
def shoelaceSum (vs : List Vec) : ℚ :=
  ∑ i ∈ Finset.range vs.length, shoelaceTerm vs i

/-- Embeds `polygon_area`. -/
def polygon_area (vs : List Vec) : ℚ :=
  if vs.length < 3 then 0
  else |shoelaceSum vs| / 2

/-- Embeds `polygon_centroid`.  The source's loop accumulates a `Vector2`
sum `centroid` and a scalar `area`; `Vector2` addition is componentwise, so
the accumulated vector is written here as the pair of componentwise sums.
The source's `cross` for index `i` coincides with `shoelaceTerm`. -/
def polygon_centroid (vs : List Vec) : Vec :=
  match vs with
  | [] => ⟨0, 0⟩
  | [v] => v
  | [a, b] => (a + b).scale (1/2)
  | _ :: _ :: _ :: _ =>
    let n := vs.length
    let cx := ∑ i ∈ Finset.range n,
      ((vAt vs i).x + (vAt vs ((i + 1) % n)).x) * shoelaceTerm vs i
    let cy := ∑ i ∈ Finset.range n,
      ((vAt vs i).y + (vAt vs ((i + 1) % n)).y) * shoelaceTerm vs i
    let area := (∑ i ∈ Finset.range n, shoelaceTerm vs i) * (1/2)
    if |area| < EPSILON then
      (⟨∑ i ∈ Finset.range n, (vAt vs i).x,
        ∑ i ∈ Finset.range n, (vAt vs i).y⟩ : Vec).scale (1 / n)
    else
      (⟨cx, cy⟩ : Vec).scale (1 / (6 * area))

/-- The result record of `split_polygon_by_line` (the source returns a dict
with keys "left", "right", "intersections"). -/
structure SplitResult where
  left : List Vec
  right : List Vec
  intersections : List Vec
deriving DecidableEq

/-- The intersection points appended during iteration `i` of the split loop:
one point when the endpoint classifications have opposite strict signs and
`segment_line_intersection` finds a point, nothing otherwise. -/
def edgeCross (vs : List Vec) (lp n : Vec) (i : ℕ) : List Vec :=
  let c := vAt vs i
  let nx := vAt vs ((i + 1) % vs.length)
  if point_side_of_line c lp n * point_side_of_line nx lp n < 0 then
    match segment_line_intersection c nx lp n with
    | some p => [p]
    | none => []
  else []

/-- Embeds `split_polygon_by_line`.  The source appends, per iteration `i`:
`current` to `left` when its side is ≥ 0, `current` to `right` when its side
is ≤ 0, and the crossing point (when any) to all three lists; concatenating
the per-iteration chunks in loop order gives the lists below. -/
def split_polygon_by_line (vs : List Vec) (lp n : Vec) : SplitResult :=
  if vs.length < 3 then ⟨[], [], []⟩
  else
    { left := (List.range vs.length).flatMap fun i =>
        (if 0 ≤ point_side_of_line (vAt vs i) lp n then [vAt vs i] else []) ++
          edgeCross vs lp n i
      right := (List.range vs.length).flatMap fun i =>
        (if point_side_of_line (vAt vs i) lp n ≤ 0 then [vAt vs i] else []) ++
          edgeCross vs lp n i
      intersections := (List.range vs.length).flatMap fun i => edgeCross vs lp n i }

/-- Real-valued vector, for the one routine that uses `math.sqrt`. -/
structure VecR where
  x : ℝ
  y : ℝ

/-- Embeds `Vector2.normalized`, which computes
`length = math.sqrt(x*x + y*y)` and guards `length < EPSILON`. -/
noncomputable def VecR.normalized (v : VecR) : VecR :=
  let length := Real.sqrt (v.x * v.x + v.y * v.y)
  if length < (EPSILON : ℝ) then ⟨0, 0⟩
  else ⟨v.x / length, v.y / length⟩

/-! ## General lemmas about the embedding -/

theorem EPSILON_pos : 0 < EPSILON := by norm_num [EPSILON]

theorem vAt_eq_getElem (vs : List Vec) (i : ℕ) (h : i < vs.length) :
    vAt vs i = vs[i] := List.getD_eq_getElem vs vzero h

theorem vAt_mem (vs : List Vec) (i : ℕ) (h : i < vs.length) : vAt vs i ∈ vs := by
  rw [vAt_eq_getElem vs i h]
  exact List.getElem_mem h

theorem vAt_reverse (vs : List Vec) (i : ℕ) (h : i < vs.length) :
    vAt vs.reverse i = vAt vs (vs.length - 1 - i) := by
  have h' : i < vs.reverse.length := by simpa using h
  have h2 : vs.length - 1 - i < vs.length := by omega
  rw [vAt, vAt, List.getD_eq_getElem _ _ h', List.getD_eq_getElem _ _ h2,
    List.getElem_reverse]

theorem flatMapCongr {α β : Type} (l : List α) (f g : α → List β)
    (h : ∀ a ∈ l, f a = g a) : l.flatMap f = l.flatMap g := by
  induction l with
  | nil => rfl
  | cons a t ih =>
    simp only [List.flatMap_cons]
    rw [h a (List.mem_cons_self a t), ih fun x hx => h x (List.mem_cons_of_mem a hx)]

theorem flatMapSingleton {α β : Type} (l : List α) (g : α → β) :
    (l.flatMap fun a => [g a]) = l.map g := by
  induction l with
  | nil => rfl
  | cons a t ih => simp [List.flatMap_cons, ih]

theorem flatMapNil {α β : Type} (l : List α) :
    (l.flatMap fun _ => ([] : List β)) = [] := by
  induction l with
  | nil => rfl
  | cons a t ih => simp [List.flatMap_cons, ih]

theorem rangeMapVAt (vs : List Vec) : (List.range vs.length).map (vAt vs) = vs := by
  apply List.ext_getElem (by simp)
  intro i h1 h2
  simp only [List.getElem_map, List.getElem_range]
  exact vAt_eq_getElem vs i h2

/-- The reflection `i ↦ (2n - 2 - i) % n` that matches edge `i` of the
reversed polygon with an edge of the original. -/
theorem revIdxMod (n i : ℕ) (hn : 0 < n) (hi : i < n) :
    (2 * n - 2 - i) % n = if i = n - 1 then n - 1 else n - 2 - i := by
  rcases eq_or_ne i (n - 1) with he | hne
  · have h1 : 2 * n - 2 - i = n - 1 := by omega
    rw [if_pos he, h1, Nat.mod_eq_of_lt (by omega)]
  · have hlt : i < n - 1 := by omega
    have h1 : 2 * n - 2 - i = n + (n - 2 - i) := by omega
    rw [if_neg hne, h1, Nat.add_mod_left, Nat.mod_eq_of_lt (by omega)]

theorem revIdxInvol (n i : ℕ) (hn : 0 < n) (hi : i < n) :
    (2 * n - 2 - (2 * n - 2 - i) % n) % n = i := by
  rcases eq_or_ne i (n - 1) with he | hne
  · rw [he, revIdxMod n (n - 1) hn (by omega), if_pos rfl,
      revIdxMod n (n - 1) hn (by omega), if_pos rfl]
  · have hlt : i < n - 1 := by omega
    rw [revIdxMod n i hn hi, if_neg hne,
      revIdxMod n (n - 2 - i) hn (by omega), if_neg (by omega)]
    omega

/-- Reversing the vertex list negates the signed shoelace accumulation. -/
theorem shoelaceSum_reverse (vs : List Vec) : shoelaceSum vs.reverse = -shoelaceSum vs := by
  rcases Nat.eq_zero_or_pos vs.length with h0 | hpos
  · have h : vs = [] := List.length_eq_zero.mp h0
    subst h
    simp [shoelaceSum]
  · unfold shoelaceSum
    rw [List.length_reverse]
    have key : ∀ i ∈ Finset.range vs.length, shoelaceTerm vs.reverse i =
        -shoelaceTerm vs ((2 * vs.length - 2 - i) % vs.length) := by
      intro i hi
      have hi' : i < vs.length := Finset.mem_range.mp hi
      unfold shoelaceTerm
      rw [List.length_reverse]
      rcases eq_or_ne i (vs.length - 1) with he | hne
      · have e1 : (i + 1) % vs.length = 0 := by
          have h1 : i + 1 = vs.length := by omega
          rw [h1, Nat.mod_self]
        have e2 : (2 * vs.length - 2 - i) % vs.length = vs.length - 1 := by
          rw [revIdxMod vs.length i hpos hi', if_pos he]
        have e3 : (vs.length - 1 + 1) % vs.length = 0 := by
          have h1 : vs.length - 1 + 1 = vs.length := by omega
          rw [h1, Nat.mod_self]
        rw [e1, e2, e3, vAt_reverse _ _ hi', vAt_reverse _ _ hpos, he]
        have e4 : vs.length - 1 - (vs.length - 1) = 0 := by omega
        rw [e4]
        have e5 : vs.length - 1 - 0 = vs.length - 1 := by omega
        rw [e5]
        ring
      · have hlt : i < vs.length - 1 := by omega
        have e1 : (i + 1) % vs.length = i + 1 := Nat.mod_eq_of_lt (by omega)
        have e2 : (2 * vs.length - 2 - i) % vs.length = vs.length - 2 - i := by
          rw [revIdxMod vs.length i hpos hi', if_neg hne]
        have e3 : (vs.length - 2 - i + 1) % vs.length = vs.length - 1 - i := by
          have h1 : vs.length - 2 - i + 1 = vs.length - 1 - i := by omega
          rw [h1, Nat.mod_eq_of_lt (by omega)]
        rw [e1, e2, e3, vAt_reverse _ _ hi', vAt_reverse _ _ (by omega)]
        have e4 : vs.length - 1 - (i + 1) = vs.length - 2 - i := by omega
        rw [e4]
        ring
    rw [Finset.sum_congr rfl key, Finset.sum_neg_distrib]
    congr 1
    exact Finset.sum_nbij' (fun i => (2 * vs.length - 2 - i) % vs.length)
      (fun i => (2 * vs.length - 2 - i) % vs.length)
      (fun a ha => Finset.mem_range.mpr (Nat.mod_lt _ hpos))
      (fun a ha => Finset.mem_range.mpr (Nat.mod_lt _ hpos))
      (fun a ha => revIdxInvol vs.length a hpos (Finset.mem_range.mp ha))
      (fun a ha => revIdxInvol vs.length a hpos (Finset.mem_range.mp ha))
      (fun a ha => rfl)

/-! ## Claims -/

/-- C8: for every input with fewer than 3 vertices, `polygon_area` returns
exactly 0 and `split_polygon_by_line` returns all three output sequences
empty.  (Neither can raise: both are total Lean functions.) -/
theorem C8_degenerate_policy (vs : List Vec) (lp n : Vec) (h : vs.length < 3) :
    polygon_area vs = 0 ∧ split_polygon_by_line vs lp n = ⟨[], [], []⟩ := by
  constructor
  · unfold polygon_area
    rw [if_pos h]
  · unfold split_polygon_by_line
    rw [if_pos h]

/-- C8 witness: the one-vertex list hits the degenerate branch. -/
theorem C8_degenerate_policy_witness :
    ([(⟨1, 2⟩ : Vec)].length < 3) ∧
      (polygon_area [⟨1, 2⟩] = 0 ∧
        split_polygon_by_line [⟨1, 2⟩] ⟨0, 0⟩ ⟨1, 0⟩ = ⟨[], [], []⟩) :=
  ⟨by norm_num, C8_degenerate_policy [⟨1, 2⟩] ⟨0, 0⟩ ⟨1, 0⟩ (by norm_num)⟩

/-- C6: `point_side_of_line` is antisymmetric under negation of the normal,
with boundary 0 mapping to 0, and a point at signed distance exactly 0 from
the line always classifies as 0. -/
theorem C6_side_antisymmetry :
    (∀ p lp n : Vec, point_side_of_line p lp n = -point_side_of_line p lp (-n)) ∧
    (∀ p lp n : Vec, (p - lp).dot n = 0 → point_side_of_line p lp n = 0) := by
  constructor
  · intro p lp n
    simp only [point_side_of_line]
    have hd : (p - lp).dot (-n) = -((p - lp).dot n) := by
      simp only [Vec.dot, Vec.neg_x, Vec.neg_y]
      ring
    rw [hd, abs_neg]
    by_cases h1 : |(p - lp).dot n| < EPSILON
    · rw [if_pos h1, if_pos h1]
      norm_num
    · rw [if_neg h1, if_neg h1]
      have hne : (p - lp).dot n ≠ 0 := by
        intro h0
        rw [h0] at h1
        exact h1 (by simpa using EPSILON_pos)
      by_cases h2 : 0 < (p - lp).dot n
      · rw [if_pos h2, if_neg (by linarith)]
        norm_num
      · have h3 : (p - lp).dot n < 0 := lt_of_le_of_ne (not_lt.mp h2) hne
        rw [if_neg h2, if_pos (by linarith)]
  · intro p lp n h
    simp only [point_side_of_line]
    rw [h]
    simp [EPSILON_pos]

/-- C6 witness: a concrete on-line point classifies as 0, and a concrete
off-line point flips sign when the normal is negated. -/
theorem C6_side_antisymmetry_witness :
    ((⟨0, 100⟩ - ⟨0, 0⟩ : Vec).dot ⟨1, 0⟩ = 0 ∧
      point_side_of_line ⟨0, 100⟩ ⟨0, 0⟩ ⟨1, 0⟩ = 0) ∧
    point_side_of_line ⟨5, 2⟩ ⟨1, 1⟩ ⟨2, 3⟩ =
      -point_side_of_line ⟨5, 2⟩ ⟨1, 1⟩ (-(⟨2, 3⟩ : Vec)) :=
  ⟨⟨by norm_num [Vec.dot],
    C6_side_antisymmetry.2 ⟨0, 100⟩ ⟨0, 0⟩ ⟨1, 0⟩ (by norm_num [Vec.dot])⟩,
   C6_side_antisymmetry.1 ⟨5, 2⟩ ⟨1, 1⟩ ⟨2, 3⟩⟩

/-- C7: `polygon_area` is non-negative for every vertex list, and reversing
the vertex order (flipping winding) leaves the area unchanged. -/
theorem C7_area_nonneg_winding_invariant (vs : List Vec) :
    0 ≤ polygon_area vs ∧ polygon_area vs.reverse = polygon_area vs := by
  constructor
  · unfold polygon_area
    by_cases h : vs.length < 3
    · rw [if_pos h]
    · rw [if_neg h]
      positivity
  · unfold polygon_area
    rw [List.length_reverse]
    by_cases h : vs.length < 3
    · rw [if_pos h, if_pos h]
    · rw [if_neg h, if_neg h, shoelaceSum_reverse, abs_neg]

theorem dot_sub_split (c nx lp n : Vec) :
    (nx - c).dot n = (nx - lp).dot n - (c - lp).dot n := by
  simp only [Vec.dot, Vec.sub_x, Vec.sub_y]
  ring

theorem dot_swap_sub (c lp n : Vec) : (lp - c).dot n = -((c - lp).dot n) := by
  simp only [Vec.dot, Vec.sub_x, Vec.sub_y]
  ring

/-- Core of C2: strictly opposite signed distances (at least `EPSILON` away
from the line on opposite sides) force `segment_line_intersection` to take
neither `none` branch. -/
theorem seg_isSome_of_opposite (c nx lp n : Vec)
    (hca : EPSILON ≤ (c - lp).dot n ∨ (c - lp).dot n ≤ -EPSILON)
    (hopp : EPSILON ≤ (c - lp).dot n → (nx - lp).dot n ≤ -EPSILON)
    (hopp' : (c - lp).dot n ≤ -EPSILON → EPSILON ≤ (nx - lp).dot n) :
    (segment_line_intersection c nx lp n).isSome = true := by
  have heps := EPSILON_pos
  simp only [segment_line_intersection]
  rw [dot_sub_split c nx lp n, dot_swap_sub c lp n]
  rcases hca with ha | ha
  · have hb := hopp ha
    have hden : ¬ |(nx - lp).dot n - (c - lp).dot n| < EPSILON := by
      rw [not_lt, abs_of_nonpos (by linarith)]
      linarith
    rw [if_neg hden]
    have ht : -((c - lp).dot n) / ((nx - lp).dot n - (c - lp).dot n) =
        (c - lp).dot n / ((c - lp).dot n - (nx - lp).dot n) := by
      rw [show (nx - lp).dot n - (c - lp).dot n =
        -((c - lp).dot n - (nx - lp).dot n) by ring, neg_div_neg_eq]
    have hab : (0:ℚ) < (c - lp).dot n - (nx - lp).dot n := by linarith
    have ht0 : 0 < (c - lp).dot n / ((c - lp).dot n - (nx - lp).dot n) :=
      div_pos (by linarith) hab
    have ht1 : (c - lp).dot n / ((c - lp).dot n - (nx - lp).dot n) < 1 :=
      (div_lt_one hab).mpr (by linarith)
    rw [if_neg (by rw [ht]; push_neg; exact ⟨by linarith, by linarith⟩)]
    rfl
  · have hb := hopp' ha
    have hden : ¬ |(nx - lp).dot n - (c - lp).dot n| < EPSILON := by
      rw [not_lt, abs_of_nonneg (by linarith)]
      linarith
    rw [if_neg hden]
    have hab : (0:ℚ) < (nx - lp).dot n - (c - lp).dot n := by linarith
    have ht0 : 0 < -((c - lp).dot n) / ((nx - lp).dot n - (c - lp).dot n) :=
      div_pos (by linarith) hab
    have ht1 : -((c - lp).dot n) / ((nx - lp).dot n - (c - lp).dot n) < 1 :=
      (div_lt_one hab).mpr (by linarith)
    rw [if_neg (by push_neg; exact ⟨by linarith, by linarith⟩)]
    rfl

/-- C2: when the two endpoints of an edge classify with opposite strict
signs, `segment_line_intersection` on that edge never returns `none`: both
`none` branches (near-parallel denominator, and `t` outside
`[-EPSILON, 1+EPSILON]`) are unreachable. -/
theorem C2_opposite_sides_intersect (c nx lp n : Vec)
    (h : point_side_of_line c lp n * point_side_of_line nx lp n < 0) :
    (segment_line_intersection c nx lp n).isSome = true := by
  have heps := EPSILON_pos
  simp only [point_side_of_line] at h
  by_cases h1 : |(c - lp).dot n| < EPSILON
  · rw [if_pos h1] at h
    simp at h
  by_cases h2 : |(nx - lp).dot n| < EPSILON
  · rw [if_pos h2, mul_zero] at h
    simp at h
  rw [if_neg h1, if_neg h2] at h
  apply seg_isSome_of_opposite
  · by_cases hA : 0 < (c - lp).dot n
    · exact Or.inl (by rw [not_lt] at h1; rwa [abs_of_pos hA] at h1)
    · refine Or.inr ?_
      rw [not_lt] at h1 hA
      rw [abs_of_nonpos hA] at h1
      linarith
  · intro haε
    by_cases hB : 0 < (nx - lp).dot n
    · exfalso
      rw [if_pos (by linarith), if_pos hB] at h
      norm_num at h
    · rw [not_lt] at h2 hB
      rw [abs_of_nonpos hB] at h2
      linarith
  · intro haε
    have hA : ¬ 0 < (c - lp).dot n := by intro hA; linarith
    by_cases hB : 0 < (nx - lp).dot n
    · rw [not_lt] at h2
      rwa [abs_of_pos hB] at h2
    · exfalso
      rw [if_neg hA, if_neg hB] at h
      norm_num at h

/-- C2 witness: the bottom edge of the test square crosses the vertical
split line, and the intersection is found. -/
theorem C2_opposite_sides_intersect_witness :
    point_side_of_line ⟨0, 0⟩ ⟨50, 0⟩ ⟨1, 0⟩ *
        point_side_of_line ⟨100, 0⟩ ⟨50, 0⟩ ⟨1, 0⟩ < 0 ∧
      (segment_line_intersection ⟨0, 0⟩ ⟨100, 0⟩ ⟨50, 0⟩ ⟨1, 0⟩).isSome = true :=
  ⟨by norm_num [point_side_of_line, Vec.dot, EPSILON],
   C2_opposite_sides_intersect ⟨0, 0⟩ ⟨100, 0⟩ ⟨50, 0⟩ ⟨1, 0⟩
     (by norm_num [point_side_of_line, Vec.dot, EPSILON])⟩

/-- C3: for a polygon of at least 3 vertices, every vertex classified on the
boundary (side 0) of the split line appears in both the left and the right
output of `split_polygon_by_line`. -/
theorem C3_boundary_in_both (vs : List Vec) (lp n v : Vec) (h3 : 3 ≤ vs.length)
    (hv : v ∈ vs) (hside : point_side_of_line v lp n = 0) :
    v ∈ (split_polygon_by_line vs lp n).left ∧
      v ∈ (split_polygon_by_line vs lp n).right := by
  obtain ⟨i, hi, hvi⟩ := List.mem_iff_getElem.mp hv
  have hveq : vAt vs i = v := by rw [vAt_eq_getElem vs i hi, hvi]
  have hnot : ¬ vs.length < 3 := by omega
  unfold split_polygon_by_line
  rw [if_neg hnot]
  constructor
  · refine List.mem_flatMap.mpr ⟨i, List.mem_range.mpr hi, ?_⟩
    rw [hveq, hside]
    simp
  · refine List.mem_flatMap.mpr ⟨i, List.mem_range.mpr hi, ?_⟩
    rw [hveq, hside]
    simp

/-- C3 witness: the corner (0,0) of the test square lies on the vertical
line through the origin and lands in both outputs. -/
theorem C3_boundary_in_both_witness :
    (⟨0, 0⟩ : Vec) ∈
        (split_polygon_by_line [⟨0,0⟩, ⟨100,0⟩, ⟨100,100⟩, ⟨0,100⟩] ⟨0,0⟩ ⟨1,0⟩).left ∧
      (⟨0, 0⟩ : Vec) ∈
        (split_polygon_by_line [⟨0,0⟩, ⟨100,0⟩, ⟨100,100⟩, ⟨0,100⟩] ⟨0,0⟩ ⟨1,0⟩).right :=
  C3_boundary_in_both [⟨0,0⟩, ⟨100,0⟩, ⟨100,100⟩, ⟨0,100⟩] ⟨0,0⟩ ⟨1,0⟩ ⟨0,0⟩
    (by norm_num) (by simp) (by norm_num [point_side_of_line, Vec.dot, EPSILON])

/-- C10: when every vertex of a polygon with at least 3 vertices classifies
strictly positive, the whole input comes back as `left` in original order
and `right` and `intersections` are empty; symmetrically for strictly
negative classifications. -/
theorem C10_noncrossing_split (vs : List Vec) (lp n : Vec) (h3 : 3 ≤ vs.length) :
    ((∀ v ∈ vs, point_side_of_line v lp n = 1) →
      (split_polygon_by_line vs lp n).left = vs ∧
        (split_polygon_by_line vs lp n).right = [] ∧
        (split_polygon_by_line vs lp n).intersections = []) ∧
    ((∀ v ∈ vs, point_side_of_line v lp n = -1) →
      (split_polygon_by_line vs lp n).right = vs ∧
        (split_polygon_by_line vs lp n).left = [] ∧
        (split_polygon_by_line vs lp n).intersections = []) := by
  have hnot : ¬ vs.length < 3 := by omega
  have hpos : 0 < vs.length := by omega
  constructor
  · intro hall
    have hside : ∀ i, i < vs.length → point_side_of_line (vAt vs i) lp n = 1 :=
      fun i hi => hall _ (vAt_mem vs i hi)
    have hcross : ∀ i ∈ List.range vs.length, edgeCross vs lp n i = [] := by
      intro i hi
      have hi' : i < vs.length := List.mem_range.mp hi
      simp only [edgeCross]
      rw [hside i hi', hside _ (Nat.mod_lt _ hpos)]
      norm_num
    unfold split_polygon_by_line
    rw [if_neg hnot]
    refine ⟨?_, ?_, ?_⟩
    · show (List.range vs.length).flatMap _ = vs
      rw [flatMapCongr _ _ (fun i => [vAt vs i]) ?_, flatMapSingleton, rangeMapVAt]
      intro i hi
      rw [hside i (List.mem_range.mp hi), hcross i hi]
      norm_num
    · show (List.range vs.length).flatMap _ = []
      rw [flatMapCongr _ _ (fun _ => []) ?_, flatMapNil]
      intro i hi
      rw [hside i (List.mem_range.mp hi), hcross i hi]
      norm_num
    · show (List.range vs.length).flatMap _ = []
      rw [flatMapCongr _ _ (fun _ => []) hcross, flatMapNil]
  · intro hall
    have hside : ∀ i, i < vs.length → point_side_of_line (vAt vs i) lp n = -1 :=
      fun i hi => hall _ (vAt_mem vs i hi)
    have hcross : ∀ i ∈ List.range vs.length, edgeCross vs lp n i = [] := by
      intro i hi
      have hi' : i < vs.length := List.mem_range.mp hi
      simp only [edgeCross]
      rw [hside i hi', hside _ (Nat.mod_lt _ hpos)]
      norm_num
    unfold split_polygon_by_line
    rw [if_neg hnot]
    refine ⟨?_, ?_, ?_⟩
    · show (List.range vs.length).flatMap _ = vs
      rw [flatMapCongr _ _ (fun i => [vAt vs i]) ?_, flatMapSingleton, rangeMapVAt]
      intro i hi
      rw [hside i (List.mem_range.mp hi), hcross i hi]
      norm_num
    · show (List.range vs.length).flatMap _ = []
      rw [flatMapCongr _ _ (fun _ => []) ?_, flatMapNil]
      intro i hi
      rw [hside i (List.mem_range.mp hi), hcross i hi]
      norm_num
    · show (List.range vs.length).flatMap _ = []
      rw [flatMapCongr _ _ (fun _ => []) hcross, flatMapNil]

/-- C10 witness: the test square is entirely strictly positive of the
vertical line through (-10, 0), and comes back whole as `left`. -/
theorem C10_noncrossing_split_witness :
    (split_polygon_by_line [⟨0,0⟩, ⟨100,0⟩, ⟨100,100⟩, ⟨0,100⟩] ⟨-10,0⟩ ⟨1,0⟩).left =
        [⟨0,0⟩, ⟨100,0⟩, ⟨100,100⟩, ⟨0,100⟩] ∧
      (split_polygon_by_line [⟨0,0⟩, ⟨100,0⟩, ⟨100,100⟩, ⟨0,100⟩] ⟨-10,0⟩ ⟨1,0⟩).right = [] ∧
      (split_polygon_by_line [⟨0,0⟩, ⟨100,0⟩, ⟨100,100⟩, ⟨0,100⟩] ⟨-10,0⟩ ⟨1,0⟩).intersections = [] :=
  (C10_noncrossing_split [⟨0,0⟩, ⟨100,0⟩, ⟨100,100⟩, ⟨0,100⟩] ⟨-10,0⟩ ⟨1,0⟩
      (by norm_num)).1
    (by
      intro v hv
      simp only [List.mem_cons, List.not_mem_nil, or_false] at hv
      rcases hv with rfl | rfl | rfl | rfl <;>
        norm_num [point_side_of_line, Vec.dot, EPSILON])

/-- C4: `segment_line_intersection` returns `none` exactly when the
denominator is within `EPSILON` of zero or the parameter `t` falls outside
`[-EPSILON, 1+EPSILON]`; otherwise it returns the endpoint-parameterised
point at the clamped parameter, which lies on the segment (clamped
parameter in `[0, 1]`). -/
theorem C4_intersection_characterization (s e lp n : Vec) :
    (segment_line_intersection s e lp n = none ↔
      |(e - s).dot n| < EPSILON ∨
        ((lp - s).dot n) / ((e - s).dot n) < -EPSILON ∨
        1 + EPSILON < ((lp - s).dot n) / ((e - s).dot n)) ∧
    (¬ |(e - s).dot n| < EPSILON →
      ¬(((lp - s).dot n) / ((e - s).dot n) < -EPSILON ∨
          1 + EPSILON < ((lp - s).dot n) / ((e - s).dot n)) →
      segment_line_intersection s e lp n =
        some ⟨s.x + (e - s).x * max 0 (min 1 (((lp - s).dot n) / ((e - s).dot n))),
              s.y + (e - s).y * max 0 (min 1 (((lp - s).dot n) / ((e - s).dot n)))⟩ ∧
      0 ≤ max 0 (min 1 (((lp - s).dot n) / ((e - s).dot n))) ∧
      max 0 (min 1 (((lp - s).dot n) / ((e - s).dot n))) ≤ 1) := by
  simp only [segment_line_intersection]
  by_cases h1 : |(e - s).dot n| < EPSILON
  · rw [if_pos h1]
    exact ⟨⟨fun _ => Or.inl h1, fun _ => rfl⟩, fun hc => absurd h1 hc⟩
  · rw [if_neg h1]
    by_cases h2 : ((lp - s).dot n) / ((e - s).dot n) < -EPSILON ∨
        1 + EPSILON < ((lp - s).dot n) / ((e - s).dot n)
    · rw [if_pos h2]
      exact ⟨⟨fun _ => Or.inr h2, fun _ => rfl⟩, fun _ hc => absurd h2 hc⟩
    · rw [if_neg h2]
      refine ⟨⟨fun hc => absurd hc (Option.some_ne_none _), fun hc => ?_⟩,
        fun _ _ => ⟨rfl, le_max_left 0 _, max_le (by norm_num) (min_le_left 1 _)⟩⟩
      rcases hc with hc | hc | hc
      · exact absurd hc h1
      · exact absurd (Or.inl hc) h2
      · exact absurd (Or.inr hc) h2

/-- C4 witness: the diagonal segment hits the vertical line at (5,5); a
parallel segment yields no intersection. -/
theorem C4_intersection_characterization_witness :
    segment_line_intersection ⟨0,0⟩ ⟨10,10⟩ ⟨5,0⟩ ⟨1,0⟩ = some ⟨5, 5⟩ ∧
      segment_line_intersection ⟨0,0⟩ ⟨10,0⟩ ⟨0,5⟩ ⟨0,1⟩ = none := by
  constructor
  · obtain ⟨heq, -, -⟩ :=
      (C4_intersection_characterization ⟨0,0⟩ ⟨10,10⟩ ⟨5,0⟩ ⟨1,0⟩).2
        (by norm_num [Vec.dot, EPSILON])
        (by norm_num [Vec.dot, EPSILON])
    rw [heq]
    norm_num [Vec.dot, min_def, max_def]
  · exact (C4_intersection_characterization ⟨0,0⟩ ⟨10,0⟩ ⟨0,5⟩ ⟨0,1⟩).1.mpr
      (Or.inl (by norm_num [Vec.dot, EPSILON]))

/-- The centroid as the claim describes it, written from the claim's words:
0 vertices → origin; 1 vertex → that vertex; 2 vertices → their midpoint;
3 or more → `C = (1/(6A)) · Σ (v_i + v_{i+1})·cross_i` with `A` the signed
half-sum of the cross terms, except that `|A| < EPSILON` falls back to the
unweighted arithmetic mean of the vertices. -/
def centroidSpec (vs : List Vec) : Vec :=
  if vs.length = 0 then ⟨0, 0⟩
  else if vs.length = 1 then vAt vs 0
  else if vs.length = 2 then (vAt vs 0 + vAt vs 1).scale (1 / 2)
  else
    let A := (∑ i ∈ Finset.range vs.length, shoelaceTerm vs i) / 2
    if |A| < EPSILON then
      (⟨∑ i ∈ Finset.range vs.length, (vAt vs i).x,
        ∑ i ∈ Finset.range vs.length, (vAt vs i).y⟩ : Vec).scale (1 / vs.length)
    else
      (⟨∑ i ∈ Finset.range vs.length,
          ((vAt vs i).x + (vAt vs ((i + 1) % vs.length)).x) * shoelaceTerm vs i,
        ∑ i ∈ Finset.range vs.length,
          ((vAt vs i).y + (vAt vs ((i + 1) % vs.length)).y) * shoelaceTerm vs i⟩ :
        Vec).scale (1 / (6 * A))

/-- C5: `polygon_centroid` agrees with the claim's case analysis by vertex
count, including the degenerate mean fallback when the signed half-area is
within `EPSILON` of zero. -/
theorem C5_centroid_cases (vs : List Vec) : polygon_centroid vs = centroidSpec vs := by
  match vs with
  | [] => rfl
  | [v] => simp [polygon_centroid, centroidSpec, vAt]
  | [a, b] => simp [polygon_centroid, centroidSpec, vAt]
  | a :: b :: c :: t =>
    simp only [polygon_centroid, centroidSpec, List.length_cons]
    rw [if_neg (by omega : ¬(t.length + 1 + 1 + 1 = 0)),
      if_neg (by omega : ¬(t.length + 1 + 1 + 1 = 1)),
      if_neg (by omega : ¬(t.length + 1 + 1 + 1 = 2)), mul_one_div]

/-- C9: `Vector2.normalized` on a vector whose length is below `EPSILON`
returns the zero vector; otherwise it divides by the (provably nonzero)
length, so no division by zero occurs, and the function is total. -/
theorem C9_normalized_guard (v : VecR) :
    (Real.sqrt (v.x * v.x + v.y * v.y) < (EPSILON : ℝ) →
      v.normalized = ⟨0, 0⟩) ∧
    (¬ Real.sqrt (v.x * v.x + v.y * v.y) < (EPSILON : ℝ) →
      Real.sqrt (v.x * v.x + v.y * v.y) ≠ 0 ∧
      v.normalized = ⟨v.x / Real.sqrt (v.x * v.x + v.y * v.y),
                      v.y / Real.sqrt (v.x * v.x + v.y * v.y)⟩) := by
  have hpos : (0 : ℝ) < (EPSILON : ℝ) := by
    exact_mod_cast EPSILON_pos
  constructor
  · intro h
    simp only [VecR.normalized]
    rw [if_pos h]
  · intro h
    refine ⟨ne_of_gt (lt_of_lt_of_le hpos (not_lt.mp h)), ?_⟩
    simp only [VecR.normalized]
    rw [if_neg h]

/-- C9 witness: the zero vector normalizes to zero through the guard, and a
(3,4) vector normalizes to (3/5, 4/5) through the division branch. -/
theorem C9_normalized_guard_witness :
    VecR.normalized ⟨0, 0⟩ = ⟨0, 0⟩ ∧ VecR.normalized ⟨3, 4⟩ = ⟨3/5, 4/5⟩ := by
  have h0 : Real.sqrt ((0 : ℝ) * 0 + 0 * 0) = 0 := by
    rw [show (0:ℝ) * 0 + 0 * 0 = 0 by norm_num, Real.sqrt_zero]
  have h5 : Real.sqrt ((3 : ℝ) * 3 + 4 * 4) = 5 := by
    rw [show (3:ℝ) * 3 + 4 * 4 = 5 ^ 2 by norm_num, Real.sqrt_sq (by norm_num : (0:ℝ) ≤ 5)]
  constructor
  · apply (C9_normalized_guard ⟨0, 0⟩).1
    show Real.sqrt ((0 : ℝ) * 0 + 0 * 0) < (EPSILON : ℝ)
    rw [h0]
    norm_num [EPSILON]
  · obtain ⟨-, heq⟩ := (C9_normalized_guard ⟨3, 4⟩).2 (by
      show ¬ Real.sqrt ((3 : ℝ) * 3 + 4 * 4) < (EPSILON : ℝ)
      rw [h5]
      norm_num [EPSILON])
    have h5' : Real.sqrt ((⟨3, 4⟩ : VecR).x * (⟨3, 4⟩ : VecR).x +
        (⟨3, 4⟩ : VecR).y * (⟨3, 4⟩ : VecR).y) = 5 := h5
    rw [heq, h5']

/-- The 100×100 square fixture of the source's area-conservation test. -/
def testSquare : List Vec := [⟨0, 0⟩, ⟨100, 0⟩, ⟨100, 100⟩, ⟨0, 100⟩]

/-- The components of `Vector2(1, 1).normalized()` as the source's test
computes them in IEEE-754 doubles: `1/sqrt(2)` rounded to nearest double,
exactly `6369051672525773 / 2^53`. -/
def diagNormal : Vec :=
  ⟨6369051672525773 / 9007199254740992, 6369051672525773 / 9007199254740992⟩

/-- A thin but non-degenerate simple triangle (area 90000) whose three
vertices all lie within `EPSILON` of the vertical line `x = 0`, which
crosses its interior. -/
def sliverTriangle : List Vec := [⟨-9/100000, 0⟩, ⟨9/100000, 0⟩, ⟨0, 1000000000⟩]

/-- C1 counterexample: area conservation within tolerance 1.0 does not hold
for every simple polygon split by a line crossing its interior.  For
`sliverTriangle` against the line `x = 0` (point (0,0), normal (1,0)) every
vertex classifies as boundary (side 0), so the whole triangle is duplicated
into both outputs: left + right area is 180000 against an original area of
90000, missing the tolerance by 89999. -/
theorem C1_conservation_counterexample :
    polygon_area sliverTriangle = 90000 ∧
    polygon_area (split_polygon_by_line sliverTriangle ⟨0, 0⟩ ⟨1, 0⟩).left +
        polygon_area (split_polygon_by_line sliverTriangle ⟨0, 0⟩ ⟨1, 0⟩).right =
      180000 ∧
    ¬(|polygon_area (split_polygon_by_line sliverTriangle ⟨0, 0⟩ ⟨1, 0⟩).left +
          polygon_area (split_polygon_by_line sliverTriangle ⟨0, 0⟩ ⟨1, 0⟩).right -
          polygon_area sliverTriangle| ≤ 1) := by
  norm_num [sliverTriangle, split_polygon_by_line, edgeCross, point_side_of_line,
    segment_line_intersection, polygon_area, shoelaceSum, shoelaceTerm, vAt,
    Vec.dot, EPSILON, List.range_succ, Finset.sum_range_succ, abs_lt, abs_le]

set_option maxHeartbeats 2000000 in
/-- C1 (amended): area conservation holds — exactly, hence within the
tested tolerance 1.0 — for the two splits of the 100×100 square the spec
verifies: the axis-aligned split through (50,0) with normal (1,0), and the
diagonal split through (50,50) with the normalized (1,1) normal. -/
theorem C1_area_conservation_square :
    (polygon_area (split_polygon_by_line testSquare ⟨50, 0⟩ ⟨1, 0⟩).left +
        polygon_area (split_polygon_by_line testSquare ⟨50, 0⟩ ⟨1, 0⟩).right =
      polygon_area testSquare) ∧
    (polygon_area (split_polygon_by_line testSquare ⟨50, 50⟩ diagNormal).left +
        polygon_area (split_polygon_by_line testSquare ⟨50, 50⟩ diagNormal).right =
      polygon_area testSquare) := by
  constructor
  · norm_num [testSquare, split_polygon_by_line, edgeCross, point_side_of_line,
      segment_line_intersection, polygon_area, shoelaceSum, shoelaceTerm, vAt,
      Vec.dot, EPSILON, List.range_succ, Finset.sum_range_succ]
  · have hside : ∀ v : Vec, point_side_of_line v ⟨50, 50⟩ diagNormal =
        (if |((v.x - 50) + (v.y - 50)) * (6369051672525773 / 9007199254740992 : ℚ)| <
            EPSILON then 0
          else if 0 < ((v.x - 50) + (v.y - 50)) * (6369051672525773 / 9007199254740992 : ℚ)
            then 1 else -1) := by
      intro v
      simp only [point_side_of_line, diagNormal, Vec.dot, Vec.sub_x, Vec.sub_y]
      ring_nf
    have hsplit : split_polygon_by_line testSquare ⟨50, 50⟩ diagNormal =
        ⟨[⟨100, 0⟩, ⟨100, 100⟩, ⟨0, 100⟩], [⟨0, 0⟩, ⟨100, 0⟩, ⟨0, 100⟩], []⟩ := by
      norm_num [testSquare, split_polygon_by_line, edgeCross, hside,
        vAt, EPSILON, List.range_succ, abs_lt]
    rw [hsplit]
    norm_num [testSquare, polygon_area, shoelaceSum, shoelaceTerm, vAt,
      Finset.sum_range_succ]
